import Mathlib

/-!
# Verification of the sgs-communication email layer

Shallow embedding of the core logic of `src/EmailInterface.js`,
`src/EmailSender.js` and the orchestration they perform:

* the `assembleEmail` accumulator machine (lines 163-268 of
  `EmailInterface.js`): three asynchronous tasks (content render, subject
  render, attachment discovery) complete in an arbitrary order and their
  per-item contributions are merged into an accumulator keyed by `uid`;
  an envelope is emitted when its `html` and `subject` fields are truthy
  and the `attachments` flag has been raised;
* the multi-recipient send aggregation of `EmailInterface.prototype.send`
  (lines 284-343): a countdown over the transport completions, with the
  per-address `_.union` aggregation;
* the transport resolution of `EmailSender.prototype.send` (lines 176-189)
  together with the `EmailSender` constructor (lines 33-70);
* the transport pinning of `EmailInterface.prototype.with` (lines 55-57).

JavaScript `undefined`/absent fields are modelled with `Option`; JS string
truthiness (`instance.html && instance.subject`) is modelled by
`truthy : Option String → Bool` (present and non-empty).
-/

namespace SgsComm

/-- The fields a partially assembled envelope can hold: the `templates`
objects passed to `accumulate` in `assembleEmail` carry some subset of
`html`, `text` and `subject` (the `uid` key is stripped on entry). -/
structure EnvFields where
  html : Option String := none
  text : Option String := none
  subject : Option String := none
deriving DecidableEq, Repr

/-- JS truthiness of a string-valued field: the field is present and not
the empty string (`instance.html && instance.subject`, line 179). -/
def truthy : Option String → Bool
  | some s => s != ""
  | none => false

/-- `_.extend(accumulator[uid] || {}, templates)` (line 175): fields
present on `templates` overwrite the accumulator entry's fields. -/
def extendFields (p q : EnvFields) : EnvFields where
  html := if q.html.isSome then q.html else p.html
  text := if q.text.isSome then q.text else p.text
  subject := if q.subject.isSome then q.subject else p.subject

/-- The accumulator of `assembleEmail` is a JS object keyed by `uid`.
Content and (templated) subject contributions arrive under a numeric uid;
the literal-subject contribution `accumulate({subject: subject})`
(lines 210-213) has `templates.uid === undefined`, so it lands under the
key `"undefined"`, modelled by the key `none`. -/
abbrev Accumulator := List (Option Nat × EnvFields)

/-- `accumulator[uid] || {}` (line 175). -/
def getAcc (acc : Accumulator) (k : Option Nat) : EnvFields :=
  match acc.find? (fun e => e.1 = k) with
  | some e => e.2
  | none => {}

/-- `accumulator[uid] = …`: overwrite in place, or create the key. -/
def setAcc (acc : Accumulator) (k : Option Nat) (p : EnvFields) : Accumulator :=
  if acc.any (fun e => e.1 = k) then
    acc.map (fun e => if e.1 = k then (k, p) else e)
  else
    acc ++ [(k, p)]

/-- `delete accumulator[uid]` (line 181). -/
def removeAcc (acc : Accumulator) (k : Option Nat) : Accumulator :=
  acc.filter (fun e => e.1 ≠ k)

/-- The state of one in-flight `assembleEmail` call: the `accumulator`
object, the `attachments` variable (initialised to `false` at line 165 and
overwritten with an array only by the `attachmentsList` task, modelled by
a flag), the envelopes passed to `assembleEmail`'s callback so far, and
the error the `async.auto` completion callback forwarded (lines 254-257);
`async.auto` invokes its completion callback with the first task error
only once. -/
structure AsmState where
  acc : Accumulator := []
  attachments : Bool := false
  emitted : List EnvFields := []
  errCb : Option String := none
deriving DecidableEq, Repr

/-- The asynchronous completions that can reach an `assembleEmail` call:

* `contentItem uid html text` — one per-item completion of the content
  render task (`templating.render` on the `content` directory invokes its
  callback once per item with `{uid, html, text}`, see
  `EmailTemplates.prototype.localize`);
* `subjectItem uid subject` — one per-item completion of the templated
  subject render (lines 217-233, `subject: templates.html`);
* `subjectLiteral subject` — the immediate `accumulate({subject})` call
  when `settings.subject` is a literal string (lines 209-213); it carries
  no uid;
* `attachDone` — the `attachmentsList` task ran (lines 240-253): the
  `attachments` variable is overwritten, raising the flag; note that this
  task does not call `accumulate`, so no completion check runs here;
* `errEvent e` — a task failed; `async.auto` forwards the first such
  error to the completion callback, which calls `assembleEmail`'s
  callback with it (lines 254-257). -/
inductive AsmEvent where
  | contentItem (uid : Nat) (html text : String)
  | subjectItem (uid : Nat) (subject : String)
  | subjectLiteral (subject : String)
  | attachDone
  | errEvent (e : String)
deriving DecidableEq, Repr

/-- The body of `accumulate` (lines 170-184): extend the accumulator entry
for `uid` with the incoming fields; if the entry now has truthy `html` and
`subject` and `attachments !== false`, delete the entry and emit the
instance to `assembleEmail`'s callback. -/
def accumulate (s : AsmState) (k : Option Nat) (tpl : EnvFields) : AsmState :=
  let inst := extendFields (getAcc s.acc k) tpl
  if truthy inst.html && truthy inst.subject && s.attachments then
    { s with acc := removeAcc (setAcc s.acc k inst) k
             emitted := s.emitted ++ [inst] }
  else
    { s with acc := setAcc s.acc k inst }

/-- Process one asynchronous completion of `assembleEmail`. -/
def stepAsm (s : AsmState) : AsmEvent → AsmState
  | .contentItem uid h t =>
      accumulate s (some uid) { html := some h, text := some t }
  | .subjectItem uid sub =>
      accumulate s (some uid) { subject := some sub }
  | .subjectLiteral sub =>
      accumulate s none { subject := some sub }
  | .attachDone => { s with attachments := true }
  | .errEvent e =>
      match s.errCb with
      | some _ => s
      | none => { s with errCb := some e }

/-- Run an `assembleEmail` call over a completion order. -/
def runAsm (l : List AsmEvent) : AsmState :=
  l.foldl stepAsm {}

/-- A caller-supplied attachment descriptor, and also the shape produced by
the `attachmentsList` task (lines 244-250). -/
structure Attachment where
  filename : String
  path : String
  cid : String
deriving DecidableEq, Repr

/-- The fields of the `settings` argument that `assembleEmail` consults.
`subject` is `some s` when `settings.subject` is a literal string
(`_.isString(subject)`, line 209); `ref` and `attachments` are carried so
that claims about them can be stated — the function bodies below read
exactly the fields the source reads. -/
structure AsmSettings where
  type : String := ""
  subject : Option String := none
  ref : Option String := none
  attachments : List Attachment := []
deriving DecidableEq, Repr

/-- Outcome of the content render task: `templating.render` either fails
once before delivering any item (engine or template-load error) or
delivers `{uid, html, text}` once per item; per-item engine errors are
dropped by `EmailTemplates.prototype.localize` (its `send` ignores its
error argument), so a task failure can only happen before any delivery. -/
def contentEvents : Except String (List (Nat × String × String)) → List AsmEvent
  | .error e => [.errEvent e]
  | .ok items => items.map (fun it => .contentItem it.1 it.2.1 it.2.2)

/-- Completions produced by the `renderedSubject` task (lines 208-234):
a literal `settings.subject` is accumulated immediately without a uid;
otherwise the subject template is rendered like the content, each item
contributing `{uid: templates.uid, subject: templates.html}`. -/
def subjectTaskEvents (st : AsmSettings) (rendered : Except String (List (Nat × String))) :
    List AsmEvent :=
  match st.subject with
  | some s => [.subjectLiteral s]
  | none =>
    match rendered with
    | .error e => [.errEvent e]
    | .ok items => items.map (fun it => .subjectItem it.1 it.2)

/-- Completions produced by the attachment tasks (lines 235-253):
`fs.readdir` either fails or yields the file list, after which
`attachmentsList` overwrites the `attachments` variable. -/
def attachEvents : Except String (List String) → List AsmEvent
  | .error e => [.errEvent e]
  | .ok _ => [.attachDone]

/-- All completions one `assembleEmail` call can receive, given the task
outcomes; the actual completion order is any permutation of this list.
Note that nothing here reads `st.ref` or `st.attachments`: the source of
`assembleEmail` never consults `settings.ref`, and the resolved
attachment list is built from the directory listing alone. -/
def assembleEvents (st : AsmSettings)
    (content : Except String (List (Nat × String × String)))
    (rendered : Except String (List (Nat × String)))
    (attach : Except String (List String)) : List AsmEvent :=
  contentEvents content ++ subjectTaskEvents st rendered ++ attachEvents attach

/-- Run `assembleEmail` with the given task outcomes in the canonical
completion order. -/
def runAssembly (st : AsmSettings)
    (content : Except String (List (Nat × String × String)))
    (rendered : Except String (List (Nat × String)))
    (attach : Except String (List String)) : AsmState :=
  runAsm (assembleEvents st content rendered attach)

/-- Whether an `Except` outcome is an error. -/
def isErr {α β : Type} : Except α β → Bool
  | .error _ => true
  | .ok _ => false

/-- Whether the assembly failed: a task that actually runs returned an
error (the subject render only runs when `settings.subject` is not a
literal string). -/
def assemblyFailed (st : AsmSettings)
    (content : Except String (List (Nat × String × String)))
    (rendered : Except String (List (Nat × String)))
    (attach : Except String (List String)) : Bool :=
  isErr content || (st.subject.isNone && isErr rendered) || isErr attach

/-- The error carried by a completion, if it is an error completion. -/
def errOf : AsmEvent → Option String
  | .errEvent e => some e
  | _ => none

/-- The errors of the tasks that actually ran. -/
def taskErrors (st : AsmSettings)
    (content : Except String (List (Nat × String × String)))
    (rendered : Except String (List (Nat × String)))
    (attach : Except String (List String)) : List String :=
  (assembleEvents st content rendered attach).filterMap errOf

/-- The subject values delivered by the completions of a run: the values
carried by `subjectItem` and `subjectLiteral` events. -/
def subjectValues (l : List AsmEvent) : List String :=
  l.filterMap fun ev =>
    match ev with
    | .subjectItem _ s => some s
    | .subjectLiteral s => some s
    | _ => none

/-- The `attachmentsList` task of `assembleEmail` (lines 240-253): map
each filename returned by `fs.readdir` to a `{filename, path, cid}`
descriptor, all three fields being the bare filename. The `settings`
argument is taken here because the claims speak about caller-supplied
`settings.attachments`; the task body never reads it, and no filtering of
any kind is applied to the listed files. -/
def resolvedAttachmentsList (_st : AsmSettings) (files : List String) : List Attachment :=
  files.map (fun a => { filename := a, path := a, cid := a })

/-! ## The multi-recipient send aggregation (`EmailInterface.prototype.send`,
lines 284-343) -/

/-- The transport's `info` object: optional `accepted` / `rejected` /
`pending` address lists (a field is `none` when it is absent or fails the
`_.isArray` check). -/
structure TransportInfo where
  accepted : Option (List String) := none
  rejected : Option (List String) := none
  pending : Option (List String) := none
deriving DecidableEq, Repr

/-- One transport completion as seen by the anonymous handler at
lines 302-340: whether the error carried an `errors` array
(`e && _.isArray(e.errors)`), and the `info` object (`none` models a
missing or non-object `info`, which trips the guard at lines 314-316). -/
structure Completion where
  hasErrorsArray : Bool := false
  info : Option TransportInfo := none
deriving DecidableEq, Repr

/-- `_.union` of underscore.js: a fresh deduplicated array; it does not
mutate its arguments. In `send` every `_.union(...)` result is discarded
(lines 305-311, 318-335 are bare expression statements), so the closure
variables `failed` and `succeeded` keep the values they were initialised
with. -/
def jsUnion (a b : List String) : List String :=
  (a ++ b).foldl (fun acc x => if x ∈ acc then acc else acc ++ [x]) []

/-- The aggregation state of one `send` call: the shared `callbackCount`
(line 289) and the argument pairs `(failed, succeeded)` of every
invocation of the caller's callback so far. -/
structure SendAggState where
  callbackCount : Int
  fired : List (List String × List String) := []
deriving DecidableEq, Repr

/-- The transport-completion handler (lines 302-340). `closureFailed` and
`closureSucceeded` are the `failed` / `succeeded` variables of the
enclosing per-envelope closure (lines 299-300); the handler evaluates
`_.union` expressions over them but never assigns the results, so they
reach the final callback unchanged. When `info` is missing or not an
object the handler returns at line 315 — before the `callbackCount === 0`
check — so the caller's callback cannot fire on that completion. -/
def handleCompletion (closureFailed closureSucceeded : List String)
    (s : SendAggState) (c : Completion) : SendAggState :=
  let count := s.callbackCount - 1
  match c.info with
  | none => { s with callbackCount := count }
  | some info =>
    let _discardedAccepted := jsUnion closureSucceeded ((info.accepted).getD [])
    let _discardedRejected := jsUnion closureFailed ((info.rejected).getD [])
    let _discardedPending := jsUnion closureFailed ((info.pending).getD [])
    if count = 0 then
      { callbackCount := count
        fired := s.fired ++ [(closureFailed, closureSucceeded)] }
    else
      { s with callbackCount := count }

/-- Run the aggregation of a `send` call over `n` data items whose
transport attempts complete in the given order. Each per-envelope closure
initialises `failed = []` and `succeeded = []` (lines 299-300) and never
reassigns them, so every handler runs with empty closure lists. -/
def runCompletions (n : Nat) (cs : List Completion) : SendAggState :=
  cs.foldl (handleCompletion [] []) { callbackCount := (n : Int) }

/-! ## The shared `settings` object (`send`, lines 292-302)

`send` passes its `settings` argument to `assembleEmail`; every time an
assembled envelope is emitted, the per-envelope callback runs
`_.extend(settings, emailContents)` — mutating the one caller-supplied
object in place — and immediately calls `this.sender.send(transport,
settings, …)` with that same object. The submission sequence is modelled
by threading the object's value: each submission records the value the
shared object holds at the moment `sender.send` is called. -/

/-- The mutable fields of the shared `settings` object that the emitted
envelopes overwrite. -/
structure MutSettings where
  subject : Option String := none
  html : Option String := none
  text : Option String := none
deriving DecidableEq, Repr

/-- `_.extend(settings, emailContents)` (line 297): fields present on the
envelope overwrite the shared object's fields. -/
def extendSettings (m : MutSettings) (env : EnvFields) : MutSettings where
  subject := if env.subject.isSome then env.subject else m.subject
  html := if env.html.isSome then env.html else m.html
  text := if env.text.isSome then env.text else m.text

/-- One emission: mutate the shared settings object with the envelope's
fields, then submit it — the submission records the value the shared
object holds at that moment. -/
def submitStep (st : MutSettings × List MutSettings) (env : EnvFields) :
    MutSettings × List MutSettings :=
  let cur := extendSettings st.1 env
  (cur, st.2 ++ [cur])

/-- Process the emitted envelopes in emission order: for each one, mutate
the shared settings object and then submit it to the transport. Returns
the final value of the caller's `settings` object and the list of values
it held at each submission. -/
def submitEnvelopes (init : MutSettings) (envs : List EnvFields) :
    MutSettings × List MutSettings :=
  envs.foldl submitStep (init, [])

/-! ## Transport resolution (`EmailSender.js`) -/

/-- JavaScript's `String.prototype.toLowerCase()` on the ASCII transport
names this code uses, character by character. -/
def jsToLowerCase (s : String) : String :=
  ⟨s.data.map Char.toLower⟩

/-- "the filename begins with a hidden-file marker (leading dot)" — the
spec's hidden-file predicate, used to state the attachment claims. -/
def isHiddenName (s : String) : Bool :=
  match s.data with
  | c :: _ => c = '.'
  | [] => false

/-- The observable state of an `EmailSender` instance: which backend
names are configured in `this.transports`, the value of
`this.defaultTransport`, and the `compiler` flag. -/
structure SenderState where
  transports : List String := []
  defaultTransport : Option String := none
  compiler : Bool := true
deriving DecidableEq, Repr

/-- The constructor options of `EmailSender` that affect transport
resolution (presence of the `direct` / `stub` / `ses` option objects, the
`defaultTransport` name, and the boolean `compiler` option). -/
structure SenderOptions where
  direct : Bool := false
  stub : Bool := false
  ses : Bool := false
  defaultTransport : Option String := none
  compiler : Option Bool := none
deriving DecidableEq, Repr

/-- `this.transports[name] = nodemailer.createTransport(...)`: property
assignment on the transports object (keeps at most one entry per name). -/
def addTransport (l : List String) (name : String) : List String :=
  if name ∈ l then l else l ++ [name]

/-- The `EmailSender` constructor (lines 33-70). It computes a local
variable `defaultTransport` (lines 49-56) and uses it only to decide
whether to add the sendmail or the direct backend (lines 58-63);
`this.defaultTransport` is never assigned anywhere in the file, so the
instance field stays `undefined` (`none`). -/
def mkSender (opts : SenderOptions) (platformLinux : Bool) : SenderState :=
  let t0 : List String := []
  let t1 := if opts.direct then addTransport t0 "direct" else t0
  let t2 := if opts.stub then addTransport t1 "stub" else t1
  let t3 := if opts.ses then addTransport t2 "ses" else t2
  let localDefault :=
    match opts.defaultTransport with
    | some d => d
    | none => if platformLinux then "sendmail" else "direct"
  let t4 :=
    if localDefault = "sendmail" then addTransport t3 "sendmail"
    else addTransport t3 "direct"
  { transports := t4
    defaultTransport := none
    compiler := opts.compiler.getD true }

/-- What a call to `EmailSender.prototype.send` does before any network
activity: either it reaches `transport.sendMail` on a configured backend,
or it throws a `TypeError` by accessing a method of `undefined`. -/
inductive SenderResult where
  | sent (backend : String)
  | jsTypeError (member : String)
deriving DecidableEq, Repr

/-- `EmailSender.prototype.send` (lines 176-189):
`var transport = this.transports[transportMethod.toLowerCase()]`; if
`this.compiler` is set, `transport.use('compile', …)` runs — throwing a
`TypeError` when `transport` is `undefined` — before the fallback test;
the fallback replaces `transportMethod` with `this.defaultTransport` and
re-reads `this.transports`; finally `transport.sendMail(settings,
callback)` runs, throwing when `transport` is still `undefined`. -/
def senderSend (s : SenderState) (transportMethod : String) : SenderResult :=
  let lowered := jsToLowerCase transportMethod
  let transport : Option String :=
    if lowered ∈ s.transports then some lowered else none
  if s.compiler && transport.isNone then
    .jsTypeError "use"
  else
    let resolved : Option String :=
      if transport.isNone || transportMethod = "*" then
        match s.defaultTransport with
        | none => none
        | some d => if d ∈ s.transports then some d else none
      else transport
    match resolved with
    | none => .jsTypeError "sendMail"
    | some b => .sent b

/-! ## Transport pinning (`EmailInterface.prototype.with`, lines 55-57) -/

/-- The transport-selection state of an `EmailInterface` instance:
`this.transport`, initialised to `null` by the constructor (line 39). -/
structure IfaceState where
  transport : Option String := none
deriving DecidableEq, Repr

/-- The operations of the interface that touch `this.transport`:
a `with(t)` call, or a `send` call (which reads `var transport =
this.transport` at line 291 and never assigns the field). -/
inductive IfaceOp where
  | withOp (t : String)
  | sendOp
deriving DecidableEq, Repr

/-- `EmailInterface.prototype.with` (lines 55-57):
`this.transport = transport; return this`. -/
def withTransport (st : IfaceState) (t : String) : IfaceState :=
  { st with transport := some t }

/-- Run a sequence of interface operations, recording the transport each
`send` call captures at its line 291. -/
def runIface (ops : List IfaceOp) : IfaceState × List (Option String) :=
  ops.foldl
    (fun st op =>
      match op with
      | .withOp t => (withTransport st.1 t, st.2)
      | .sendOp => (st.1, st.2 ++ [st.1.transport]))
    ({}, [])

/-- The sender of the repository's own test configuration
(`test/test.js`): `{stub: {}, defaultTransport: 'stub'}`, on a non-linux
platform, default `compiler`. -/
def testSender : SenderState :=
  mkSender { stub := true, defaultTransport := some "stub" } false

/-- The same test configuration with the `compiler` option disabled, so
that `EmailSender.prototype.send` gets past the `transport.use` line. -/
def testSenderNoCompiler : SenderState :=
  mkSender { stub := true, defaultTransport := some "stub", compiler := some false } false

/-! ## Theorems -/

/-- C1: the code evaluated at the failing input. For a `send` over one
DataItem whose single transport attempt completes with an error carrying
an `errors` array but no `info` object, the countdown reaches zero yet
the caller's callback is never invoked: the handler returns at the
`!info` guard (lines 314-316) before the `callbackCount === 0` check, so
the claimed "exactly once" invocation never happens. -/
theorem C1_callback_lost_when_last_completion_lacks_info :
    runCompletions 1 [{ hasErrorsArray := true, info := none }] =
      { callbackCount := 0, fired := [] } := by
  decide

/-- C2: the code evaluated at the claim's own example. With two DataItems
whose transports report `{accepted: ['a@x.com'], rejected: ['b@x.com']}`
and `{accepted: ['c@x.com']}`, the callback is invoked once — but with
`failed = []` and `succeeded = []`, not the merged address lists: every
`_.union` result in the handler is discarded, and the `failed` /
`succeeded` variables are fresh per envelope closure. -/
theorem C2_callback_receives_empty_lists :
    (runCompletions 2
      [ { info := some { accepted := some ["a@x.com"], rejected := some ["b@x.com"] } },
        { info := some { accepted := some ["c@x.com"] } } ]).fired
      = [([], [])]
    ∧ ([([], [])] : List (List String × List String))
        ≠ [(["b@x.com"], ["a@x.com", "c@x.com"])] := by
  decide

/-- C3: the code evaluated at the failing inputs. On a sender built from
the repository's test configuration (`stub` backend configured,
`defaultTransport: 'stub'`), sending via the wildcard `'*'` or an
unconfigured name throws a `TypeError` instead of delegating to the
default backend: with the compiler enabled, `transport.use` is called on
`undefined` before the fallback test; with it disabled, the fallback
reads `this.defaultTransport`, which the constructor never assigned, so
`sendMail` is called on `undefined`. -/
theorem C3_fallback_throws_instead_of_default :
    senderSend testSender "*" = .jsTypeError "use"
    ∧ senderSend testSender "nonexistent-transport" = .jsTypeError "use"
    ∧ senderSend testSenderNoCompiler "*" = .jsTypeError "sendMail"
    ∧ senderSend testSenderNoCompiler "nonexistent-transport" = .jsTypeError "sendMail"
    ∧ senderSend testSender "*" ≠ .sent "stub"
    ∧ senderSend testSenderNoCompiler "*" ≠ .sent "stub" := by
  decide

/-- C5: the code evaluated at the failing input. With a literal
`settings.subject = "Hello"` and one DataItem whose content renders to
`("H", "T")`, the literal subject is accumulated under the `undefined`
uid while the content sits under uid 0, so no accumulator entry ever has
both `html` and `subject`: no envelope is emitted in any completion
order, and the assembled envelope the claim promises never exists. The
last conjunct states it for the full `assembleEmail` run derived from
those settings. -/
theorem C5_literal_subject_never_completes :
    (runAsm [.attachDone, .subjectLiteral "Hello", .contentItem 0 "H" "T"]).emitted = []
    ∧ (runAsm [.attachDone, .contentItem 0 "H" "T", .subjectLiteral "Hello"]).emitted = []
    ∧ (runAsm [.subjectLiteral "Hello", .attachDone, .contentItem 0 "H" "T"]).emitted = []
    ∧ (runAsm [.subjectLiteral "Hello", .contentItem 0 "H" "T", .attachDone]).emitted = []
    ∧ (runAsm [.contentItem 0 "H" "T", .attachDone, .subjectLiteral "Hello"]).emitted = []
    ∧ (runAsm [.contentItem 0 "H" "T", .subjectLiteral "Hello", .attachDone]).emitted = []
    ∧ (runAssembly { type := "testing", subject := some "Hello" }
        (.ok [(0, "H", "T")]) (.ok []) (.ok ["f.png"])).emitted = [] := by
  decide

/-- C6, counterexample: the claim is false at a concrete input. With a
caller-supplied attachment `extra.png` in the settings and a discovered
file list `['.DS_Store', 'logo.png']`, the resolved list keeps the hidden
`.DS_Store` entry and does not contain the caller-supplied `extra.png`:
no merge and no hidden-file filtering happens. -/
theorem C6_hidden_file_kept_and_caller_attachment_dropped :
    resolvedAttachmentsList
        { attachments := [{ filename := "extra.png", path := "p", cid := "c" }] }
        [".DS_Store", "logo.png"]
      = [ { filename := ".DS_Store", path := ".DS_Store", cid := ".DS_Store" },
          { filename := "logo.png", path := "logo.png", cid := "logo.png" } ]
    ∧ ({ filename := ".DS_Store", path := ".DS_Store", cid := ".DS_Store" } : Attachment)
        ∈ resolvedAttachmentsList
            { attachments := [{ filename := "extra.png", path := "p", cid := "c" }] }
            [".DS_Store", "logo.png"]
    ∧ ({ filename := "extra.png", path := "p", cid := "c" } : Attachment)
        ∉ resolvedAttachmentsList
            { attachments := [{ filename := "extra.png", path := "p", cid := "c" }] }
            [".DS_Store", "logo.png"]
    ∧ isHiddenName ".DS_Store" = true := by
  decide

/-- C7, counterexample: the claim is false at a concrete input. After
`with('stub')` and a first `send`, a second `send` not preceded by
another `with` still captures `'stub'` as its transport — the pinned
transport is reused, because `send` never resets `this.transport`. -/
theorem C7_second_send_reuses_pinned_transport :
    (runIface [.withOp "stub", .sendOp, .sendOp]).2 = [some "stub", some "stub"]
    ∧ (runIface [.withOp "stub", .sendOp, .sendOp]).2.getLast? = some (some "stub") := by
  decide

/-- C9, counterexample: the claim is false at a concrete input. With the
three contributions for uid 0 being content `("H", "T")`, subject `"S"`
and the attachment-discovery completion, the order in which attachment
discovery completes last emits no envelope (the `attachments` flag is
raised without re-running the completion check), while the order in which
it completes first emits the envelope — so completion order does change
the final emitted envelope. -/
theorem C9_attachments_last_changes_result :
    (runAsm [.contentItem 0 "H" "T", .subjectItem 0 "S", .attachDone]).emitted = []
    ∧ (runAsm [.attachDone, .contentItem 0 "H" "T", .subjectItem 0 "S"]).emitted
        = [{ html := some "H", text := some "T", subject := some "S" }]
    ∧ (runAsm [.contentItem 0 "H" "T", .subjectItem 0 "S", .attachDone]).emitted
        ≠ (runAsm [.attachDone, .contentItem 0 "H" "T", .subjectItem 0 "S"]).emitted := by
  decide

/-- C10, counterexample: the claim is false at a concrete input. With two
emitted envelopes `(S1, H1, T1)` and `(S2, H2, T2)`, the second transport
submission — issued after the first envelope's merge into the shared
settings object — observes the second envelope's own fields, not the
first item's: the merge for an envelope immediately precedes its
submission and overwrites the earlier fields. -/
theorem C10_second_submission_observes_own_fields :
    (submitEnvelopes {}
        [ { html := some "H1", text := some "T1", subject := some "S1" },
          { html := some "H2", text := some "T2", subject := some "S2" } ]).2
      = [ { subject := some "S1", html := some "H1", text := some "T1" },
          { subject := some "S2", html := some "H2", text := some "T2" } ]
    ∧ ({ subject := some "S2", html := some "H2", text := some "T2" } : MutSettings)
        ≠ { subject := some "S1", html := some "H1", text := some "T1" } := by
  decide

/-- C6 (amended): the resolved attachment list consists exactly of the
files discovered under the attachments directory, each mapped to a
descriptor whose `path` and `cid` equal the bare filename; the
caller-supplied `settings.attachments` are ignored (the result does not
depend on the settings at all) and hidden files are not excluded (every
discovered filename, dot-prefixed or not, yields an entry). -/
theorem C6_resolved_list_is_discovered_files_unfiltered :
    ∀ (s s' : AsmSettings) (files : List String),
      resolvedAttachmentsList s files = resolvedAttachmentsList s' files
      ∧ (resolvedAttachmentsList s files).map (fun a => a.filename) = files
      ∧ (∀ a ∈ resolvedAttachmentsList s files, a.path = a.filename ∧ a.cid = a.filename)
      ∧ (∀ f ∈ files,
          ({ filename := f, path := f, cid := f } : Attachment)
            ∈ resolvedAttachmentsList s files) := by
  intro s s' files
  refine ⟨rfl, ?_, ?_, ?_⟩
  · simp [resolvedAttachmentsList, List.map_map, Function.comp_def]
  · intro a ha
    simp only [resolvedAttachmentsList, List.mem_map] at ha
    obtain ⟨f, _, rfl⟩ := ha
    exact ⟨rfl, rfl⟩
  · intro f hf
    simp only [resolvedAttachmentsList, List.mem_map]
    exact ⟨f, hf, rfl⟩

/-- Closed instance of the C6 amended theorem at a concrete hidden file. -/
theorem C6_resolved_list_witness :
    resolvedAttachmentsList { } [".hidden"]
        = resolvedAttachmentsList { type := "t" } [".hidden"]
    ∧ ({ filename := ".hidden", path := ".hidden", cid := ".hidden" } : Attachment)
        ∈ resolvedAttachmentsList { } [".hidden"] :=
  ⟨(C6_resolved_list_is_discovered_files_unfiltered { } { type := "t" } [".hidden"]).1,
   (C6_resolved_list_is_discovered_files_unfiltered { } { type := "t" } [".hidden"]).2.2.2
     ".hidden" (by decide)⟩

/-- C7 (amended): `with(transportName)` pins the transport for all
subsequent `send` calls until the next `with` call: a `send` leaves
`this.transport` unchanged and captures the currently pinned value, so a
`send` not preceded by another `with` reuses the previously pinned
transport. -/
theorem C7_send_preserves_pinned_transport :
    ∀ (ops : List IfaceOp),
      (runIface (ops ++ [.sendOp])).1 = (runIface ops).1
      ∧ (runIface (ops ++ [.sendOp])).2
          = (runIface ops).2 ++ [(runIface ops).1.transport] := by
  intro ops
  constructor <;> simp [runIface, List.foldl_append]

/-- Accumulator lemma for `submitEnvelopes`: the recorded submissions are
appended to whatever was already recorded. -/
theorem submitStep_foldl_acc (es : List EnvFields) :
    ∀ (x : MutSettings) (l : List MutSettings),
      es.foldl submitStep (x, l)
        = ((es.foldl submitStep (x, [])).1, l ++ (es.foldl submitStep (x, [])).2) := by
  induction es with
  | nil => intro x l; simp
  | cons e es ih =>
    intro x l
    simp only [List.foldl_cons, submitStep, List.nil_append]
    rw [ih (extendSettings x e) (l ++ [extendSettings x e]),
        ih (extendSettings x e) [extendSettings x e]]
    simp

/-- C9 (amended): the per-uid accumulator merge is commutative across the
completion orders in which the attachment discovery does not complete
last: the four such orders of the three contributions yield the same
final state, hence the same emitted envelope. (When attachment discovery
completes after both render contributions, no envelope is emitted — the
`attachments` flag is raised without re-running the completion check —
which is what the counterexample exhibits.) -/
theorem C9_merge_commutative_when_attachments_not_last :
    ∀ (u : Nat) (h t s : String),
      runAsm [.attachDone, .contentItem u h t, .subjectItem u s]
        = runAsm [.attachDone, .subjectItem u s, .contentItem u h t]
      ∧ runAsm [.attachDone, .contentItem u h t, .subjectItem u s]
        = runAsm [.contentItem u h t, .attachDone, .subjectItem u s]
      ∧ runAsm [.attachDone, .contentItem u h t, .subjectItem u s]
        = runAsm [.subjectItem u s, .attachDone, .contentItem u h t] := by
  intro u h t s
  refine ⟨?_, ?_, ?_⟩ <;>
    simp [runAsm, stepAsm, accumulate, getAcc, setAcc, removeAcc, extendFields, truthy]

/-- C10 (amended): every transport submission receives the one shared,
mutated-in-place settings object, each envelope's fields being merged
into it immediately before its own submission; consequently each
submission observes its *own* envelope's rendered subject/html/text (the
merge for that envelope overwrites the fields of any earlier one), and
the caller's settings object ends up holding all the envelopes merged in
emission order (i.e. the last envelope's fields). -/
theorem C10_each_submission_observes_own_envelope :
    ∀ (init : MutSettings) (envs : List EnvFields),
      (∀ p ∈ envs, p.html.isSome ∧ p.text.isSome ∧ p.subject.isSome) →
      (submitEnvelopes init envs).2.map (fun m => (m.subject, m.html, m.text))
          = envs.map (fun p => (p.subject, p.html, p.text))
      ∧ (submitEnvelopes init envs).1 = envs.foldl extendSettings init := by
  intro init envs
  induction envs generalizing init with
  | nil => intro _; exact ⟨rfl, rfl⟩
  | cons e es ih =>
    intro hall
    have he := hall e (List.mem_cons_self e es)
    have hes := fun p hp => hall p (List.mem_cons_of_mem e hp)
    have hcons : submitEnvelopes init (e :: es)
        = ((submitEnvelopes (extendSettings init e) es).1,
            extendSettings init e :: (submitEnvelopes (extendSettings init e) es).2) := by
      simp only [submitEnvelopes, List.foldl_cons, submitStep, List.nil_append]
      rw [submitStep_foldl_acc es (extendSettings init e) [extendSettings init e]]
      rfl
    obtain ⟨ih1, ih2⟩ := ih (extendSettings init e) hes
    constructor
    · rw [hcons]
      simp only [List.map_cons, ih1]
      have hfields : extendSettings init e
          = { subject := e.subject, html := e.html, text := e.text } := by
        obtain ⟨h1, h2, h3⟩ := he
        simp [extendSettings, h1, h2, h3]
      rw [hfields]
    · rw [hcons]
      simpa using ih2

/-- Closed instance of the C10 amended theorem at two concrete
envelopes. -/
theorem C10_each_submission_observes_own_envelope_witness :
    (submitEnvelopes { }
        [ { html := some "H1", text := some "T1", subject := some "S1" },
          { html := some "H2", text := some "T2", subject := some "S2" } ]).2.map
        (fun m => (m.subject, m.html, m.text))
      = ([ { html := some "H1", text := some "T1", subject := some "S1" },
           { html := some "H2", text := some "T2", subject := some "S2" } ] :
            List EnvFields).map
          (fun p => (p.subject, p.html, p.text))
    ∧ (submitEnvelopes { }
        [ { html := some "H1", text := some "T1", subject := some "S1" },
          { html := some "H2", text := some "T2", subject := some "S2" } ]).1
      = [ ({ html := some "H1", text := some "T1", subject := some "S1" } : EnvFields),
          { html := some "H2", text := some "T2", subject := some "S2" } ].foldl
          extendSettings { } :=
  C10_each_submission_observes_own_envelope { }
    [ { html := some "H1", text := some "T1", subject := some "S1" },
      { html := some "H2", text := some "T2", subject := some "S2" } ]
    (by decide)

/-! ### Helper lemmas about the assembly machine -/

/-- An entry of `setAcc acc k p` is the written entry or an old one. -/
theorem mem_setAcc {acc : Accumulator} {k : Option Nat} {p : EnvFields}
    {e : Option Nat × EnvFields} (he : e ∈ setAcc acc k p) : e = (k, p) ∨ e ∈ acc := by
  unfold setAcc at he
  by_cases hc : (acc.any (fun x => x.1 = k)) = true
  · rw [if_pos hc] at he
    rcases List.mem_map.mp he with ⟨x, hx, heq⟩
    by_cases hk : x.1 = k
    · left; rw [← heq, if_pos hk]
    · right; rw [← heq, if_neg hk]; exact hx
  · rw [if_neg hc] at he
    rcases List.mem_append.mp he with h1 | h1
    · right; exact h1
    · left; simpa using h1

/-- An entry of `removeAcc acc k` is an entry of `acc`. -/
theorem mem_removeAcc {acc : Accumulator} {k : Option Nat}
    {e : Option Nat × EnvFields} (he : e ∈ removeAcc acc k) : e ∈ acc :=
  List.mem_of_mem_filter he

/-- `accumulator[uid] || {}` is either the stored entry or the empty
object. -/
theorem getAcc_cases (acc : Accumulator) (k : Option Nat) :
    (∃ e, e ∈ acc ∧ e.1 = k ∧ getAcc acc k = e.2) ∨ getAcc acc k = { } := by
  unfold getAcc
  cases hf : acc.find? (fun e => e.1 = k) with
  | none => right; rfl
  | some e =>
    left
    refine ⟨e, List.mem_of_find?_eq_some hf, ?_, rfl⟩
    simpa using List.find?_some hf

/-- `accumulate` never touches the error callback state. -/
theorem accumulate_errCb (s : AsmState) (k : Option Nat) (tpl : EnvFields) :
    (accumulate s k tpl).errCb = s.errCb := by
  unfold accumulate
  dsimp only
  split <;> rfl

/-- `accumulate` never touches the `attachments` flag. -/
theorem accumulate_attachments (s : AsmState) (k : Option Nat) (tpl : EnvFields) :
    (accumulate s k tpl).attachments = s.attachments := by
  unfold accumulate
  dsimp only
  split <;> rfl

/-- When the completion check fails, `accumulate` only rewrites the
accumulator entry. -/
theorem accumulate_of_no_fire (s : AsmState) (k : Option Nat) (tpl : EnvFields)
    (hc : (truthy (extendFields (getAcc s.acc k) tpl).html
            && truthy (extendFields (getAcc s.acc k) tpl).subject
            && s.attachments) = false) :
    accumulate s k tpl
      = { s with acc := setAcc s.acc k (extendFields (getAcc s.acc k) tpl) } := by
  unfold accumulate
  simp only [hc, Bool.false_eq_true, if_false]

/-- A completion that is not an error event leaves the error callback
state unchanged. -/
theorem stepAsm_errCb_of_no_err (s : AsmState) (ev : AsmEvent)
    (hev : errOf ev = none) : (stepAsm s ev).errCb = s.errCb := by
  cases ev with
  | contentItem u hh tt => exact accumulate_errCb s (some u) _
  | subjectItem u sub => exact accumulate_errCb s (some u) _
  | subjectLiteral sub => exact accumulate_errCb s none _
  | attachDone => rfl
  | errEvent e => exact absurd hev (by simp [errOf])

/-- Once the `async.auto` completion callback has fired with an error, it
stays fired with that error. -/
theorem errCb_foldl_of_some : ∀ (l : List AsmEvent) (s : AsmState) (e : String),
    s.errCb = some e → (l.foldl stepAsm s).errCb = some e := by
  intro l
  induction l with
  | nil => intro s e h; exact h
  | cons ev l ih =>
    intro s e h
    simp only [List.foldl_cons]
    apply ih
    cases hov : errOf ev with
    | none => rw [stepAsm_errCb_of_no_err s ev hov]; exact h
    | some e2 =>
      cases ev with
      | errEvent e3 => simp only [stepAsm, h]
      | contentItem u hh tt => simp [errOf] at hov
      | subjectItem u sub => simp [errOf] at hov
      | subjectLiteral sub => simp [errOf] at hov
      | attachDone => simp [errOf] at hov

/-- The error the `async.auto` completion callback receives is the first
error among the completions, whatever the completion order. -/
theorem errCb_foldl_of_none : ∀ (l : List AsmEvent) (s : AsmState),
    s.errCb = none → (l.foldl stepAsm s).errCb = (l.filterMap errOf).head? := by
  intro l
  induction l with
  | nil => intro s h; simpa using h
  | cons ev l ih =>
    intro s h
    simp only [List.foldl_cons]
    cases ev with
    | errEvent e =>
      simp only [stepAsm, h]
      rw [errCb_foldl_of_some l { s with errCb := some e } e rfl]
      simp [errOf]
    | contentItem u hh tt =>
      rw [ih (stepAsm s (.contentItem u hh tt))
        (by rw [stepAsm_errCb_of_no_err s _ (by simp [errOf])]; exact h)]
      simp [errOf]
    | subjectItem u sub =>
      rw [ih (stepAsm s (.subjectItem u sub))
        (by rw [stepAsm_errCb_of_no_err s _ (by simp [errOf])]; exact h)]
      simp [errOf]
    | subjectLiteral sub =>
      rw [ih (stepAsm s (.subjectLiteral sub))
        (by rw [stepAsm_errCb_of_no_err s _ (by simp [errOf])]; exact h)]
      simp [errOf]
    | attachDone =>
      rw [ih (stepAsm s .attachDone) (by exact h)]
      simp [errOf]

/-- If the `attachments` flag is still down and no completion of the run
raises it, nothing is ever emitted: the completion check requires
`attachments !== false`. -/
theorem emitted_nil_of_no_attachDone : ∀ (l : List AsmEvent) (s : AsmState),
    AsmEvent.attachDone ∉ l → s.emitted = [] → s.attachments = false →
    (l.foldl stepAsm s).emitted = [] := by
  intro l
  induction l with
  | nil => intro s _ he _; exact he
  | cons ev l ih =>
    intro s hmem he ha
    have hl : AsmEvent.attachDone ∉ l := fun hx => hmem (List.mem_cons_of_mem _ hx)
    simp only [List.foldl_cons]
    have hfire : ∀ (k : Option Nat) (tpl : EnvFields),
        (truthy (extendFields (getAcc s.acc k) tpl).html
          && truthy (extendFields (getAcc s.acc k) tpl).subject
          && s.attachments) = false := by
      intro k tpl
      rw [ha, Bool.and_false]
    cases ev with
    | attachDone => exact absurd (List.mem_cons_self AsmEvent.attachDone l) hmem
    | errEvent e =>
      refine ih _ hl ?_ ?_
      · cases hcb : s.errCb <;> simp [stepAsm, hcb, he]
      · cases hcb : s.errCb <;> simp [stepAsm, hcb, ha]
    | contentItem u hh tt =>
      refine ih _ ?_ ?_ ?_
      · exact hl
      · rw [show stepAsm s (.contentItem u hh tt)
            = accumulate s (some u) { html := some hh, text := some tt } from rfl,
          accumulate_of_no_fire s (some u) _ (hfire (some u) _)]
        exact he
      · rw [show stepAsm s (.contentItem u hh tt)
            = accumulate s (some u) { html := some hh, text := some tt } from rfl,
          accumulate_attachments]
        exact ha
    | subjectItem u sub =>
      refine ih _ ?_ ?_ ?_
      · exact hl
      · rw [show stepAsm s (.subjectItem u sub)
            = accumulate s (some u) { subject := some sub } from rfl,
          accumulate_of_no_fire s (some u) _ (hfire (some u) _)]
        exact he
      · rw [show stepAsm s (.subjectItem u sub)
            = accumulate s (some u) { subject := some sub } from rfl,
          accumulate_attachments]
        exact ha
    | subjectLiteral sub =>
      refine ih _ ?_ ?_ ?_
      · exact hl
      · rw [show stepAsm s (.subjectLiteral sub)
            = accumulate s none { subject := some sub } from rfl,
          accumulate_of_no_fire s none _ (hfire none _)]
        exact he
      · rw [show stepAsm s (.subjectLiteral sub)
            = accumulate s none { subject := some sub } from rfl,
          accumulate_attachments]
        exact ha

/-- A contribution that carries no `html` keeps the accumulator free of
`html` fields and cannot complete an envelope. -/
theorem accumulate_inv_html (s : AsmState) (k : Option Nat) (tpl : EnvFields)
    (hacc : ∀ e ∈ s.acc, e.2.html = none) (htpl : tpl.html = none)
    (he : s.emitted = []) :
    (accumulate s k tpl).emitted = []
    ∧ ∀ e ∈ (accumulate s k tpl).acc, e.2.html = none := by
  have hinst : (extendFields (getAcc s.acc k) tpl).html = none := by
    show (if tpl.html.isSome then tpl.html else (getAcc s.acc k).html) = none
    rw [htpl]
    simp only [Option.isSome_none, Bool.false_eq_true, if_false]
    rcases getAcc_cases s.acc k with ⟨e, hemem, _, hg⟩ | hg
    · rw [hg]; exact hacc e hemem
    · rw [hg]
  have hfire : (truthy (extendFields (getAcc s.acc k) tpl).html
      && truthy (extendFields (getAcc s.acc k) tpl).subject
      && s.attachments) = false := by
    rw [hinst]
    rfl
  rw [accumulate_of_no_fire s k tpl hfire]
  refine ⟨he, ?_⟩
  intro e hemem
  rcases mem_setAcc hemem with heq | hold
  · rw [heq]; exact hinst
  · exact hacc e hold

/-- A contribution that carries no `subject` keeps the accumulator free
of `subject` fields and cannot complete an envelope. -/
theorem accumulate_inv_subject (s : AsmState) (k : Option Nat) (tpl : EnvFields)
    (hacc : ∀ e ∈ s.acc, e.2.subject = none) (htpl : tpl.subject = none)
    (he : s.emitted = []) :
    (accumulate s k tpl).emitted = []
    ∧ ∀ e ∈ (accumulate s k tpl).acc, e.2.subject = none := by
  have hinst : (extendFields (getAcc s.acc k) tpl).subject = none := by
    show (if tpl.subject.isSome then tpl.subject else (getAcc s.acc k).subject) = none
    rw [htpl]
    simp only [Option.isSome_none, Bool.false_eq_true, if_false]
    rcases getAcc_cases s.acc k with ⟨e, hemem, _, hg⟩ | hg
    · rw [hg]; exact hacc e hemem
    · rw [hg]
  have hfire : (truthy (extendFields (getAcc s.acc k) tpl).html
      && truthy (extendFields (getAcc s.acc k) tpl).subject
      && s.attachments) = false := by
    rw [hinst]
    simp [truthy]
  rw [accumulate_of_no_fire s k tpl hfire]
  refine ⟨he, ?_⟩
  intro e hemem
  rcases mem_setAcc hemem with heq | hold
  · rw [heq]; exact hinst
  · exact hacc e hold

/-- If no content contribution ever arrives, no envelope is emitted: the
completion check requires a truthy `html` field. -/
theorem emitted_nil_of_no_content : ∀ (l : List AsmEvent) (s : AsmState),
    (∀ u hh tt, AsmEvent.contentItem u hh tt ∉ l) →
    s.emitted = [] → (∀ e ∈ s.acc, e.2.html = none) →
    (l.foldl stepAsm s).emitted = [] := by
  intro l
  induction l with
  | nil => intro s _ he _; exact he
  | cons ev l ih =>
    intro s hmem he hacc
    have hl : ∀ u hh tt, AsmEvent.contentItem u hh tt ∉ l :=
      fun u hh tt hx => hmem u hh tt (List.mem_cons_of_mem _ hx)
    simp only [List.foldl_cons]
    cases ev with
    | contentItem u hh tt =>
      exact absurd (List.mem_cons_self (AsmEvent.contentItem u hh tt) l) (hmem u hh tt)
    | errEvent e =>
      refine ih _ hl ?_ ?_
      · cases hcb : s.errCb <;> simp [stepAsm, hcb, he]
      · cases hcb : s.errCb <;> simp [stepAsm, hcb] <;>
          exact fun a b hab => hacc (a, b) hab
    | attachDone => exact ih _ hl he hacc
    | subjectItem u sub =>
      obtain ⟨h1, h2⟩ := accumulate_inv_html s (some u) { subject := some sub } hacc rfl he
      exact ih _ hl h1 h2
    | subjectLiteral sub =>
      obtain ⟨h1, h2⟩ := accumulate_inv_html s none { subject := some sub } hacc rfl he
      exact ih _ hl h1 h2

/-- If no subject contribution ever arrives (neither a templated one nor
the literal one), no envelope is emitted: the completion check requires a
truthy `subject` field. -/
theorem emitted_nil_of_no_subject : ∀ (l : List AsmEvent) (s : AsmState),
    (∀ u sub, AsmEvent.subjectItem u sub ∉ l) →
    (∀ sub, AsmEvent.subjectLiteral sub ∉ l) →
    s.emitted = [] → (∀ e ∈ s.acc, e.2.subject = none) →
    (l.foldl stepAsm s).emitted = [] := by
  intro l
  induction l with
  | nil => intro s _ _ he _; exact he
  | cons ev l ih =>
    intro s hmem1 hmem2 he hacc
    have hl1 : ∀ u sub, AsmEvent.subjectItem u sub ∉ l :=
      fun u sub hx => hmem1 u sub (List.mem_cons_of_mem _ hx)
    have hl2 : ∀ sub, AsmEvent.subjectLiteral sub ∉ l :=
      fun sub hx => hmem2 sub (List.mem_cons_of_mem _ hx)
    simp only [List.foldl_cons]
    cases ev with
    | subjectItem u sub =>
      exact absurd (List.mem_cons_self (AsmEvent.subjectItem u sub) l) (hmem1 u sub)
    | subjectLiteral sub =>
      exact absurd (List.mem_cons_self (AsmEvent.subjectLiteral sub) l) (hmem2 sub)
    | errEvent e =>
      refine ih _ hl1 hl2 ?_ ?_
      · cases hcb : s.errCb <;> simp [stepAsm, hcb, he]
      · cases hcb : s.errCb <;> simp [stepAsm, hcb] <;>
          exact fun a b hab => hacc (a, b) hab
    | attachDone => exact ih _ hl1 hl2 he hacc
    | contentItem u hh tt =>
      obtain ⟨h1, h2⟩ := accumulate_inv_subject s (some u)
        { html := some hh, text := some tt } hacc rfl he
      exact ih _ hl1 hl2 h1 h2

/-! ### Which events each task can produce -/

theorem contentItem_not_mem_subjectTaskEvents (st : AsmSettings)
    (r : Except String (List (Nat × String))) (u : Nat) (hh tt : String) :
    AsmEvent.contentItem u hh tt ∉ subjectTaskEvents st r := by
  unfold subjectTaskEvents
  cases st.subject with
  | some s => simp
  | none =>
    cases r with
    | error e => simp
    | ok items => simp [List.mem_map]

theorem contentItem_not_mem_attachEvents
    (a : Except String (List String)) (u : Nat) (hh tt : String) :
    AsmEvent.contentItem u hh tt ∉ attachEvents a := by
  cases a <;> simp [attachEvents]

theorem subjectItem_not_mem_contentEvents
    (c : Except String (List (Nat × String × String))) (u : Nat) (sub : String) :
    AsmEvent.subjectItem u sub ∉ contentEvents c := by
  cases c <;> simp [contentEvents, List.mem_map]

theorem subjectItem_not_mem_attachEvents
    (a : Except String (List String)) (u : Nat) (sub : String) :
    AsmEvent.subjectItem u sub ∉ attachEvents a := by
  cases a <;> simp [attachEvents]

theorem subjectLiteral_not_mem_contentEvents
    (c : Except String (List (Nat × String × String))) (sub : String) :
    AsmEvent.subjectLiteral sub ∉ contentEvents c := by
  cases c <;> simp [contentEvents, List.mem_map]

theorem subjectLiteral_not_mem_attachEvents
    (a : Except String (List String)) (sub : String) :
    AsmEvent.subjectLiteral sub ∉ attachEvents a := by
  cases a <;> simp [attachEvents]

theorem attachDone_not_mem_contentEvents
    (c : Except String (List (Nat × String × String))) :
    AsmEvent.attachDone ∉ contentEvents c := by
  cases c <;> simp [contentEvents, List.mem_map]

theorem attachDone_not_mem_subjectTaskEvents (st : AsmSettings)
    (r : Except String (List (Nat × String))) :
    AsmEvent.attachDone ∉ subjectTaskEvents st r := by
  unfold subjectTaskEvents
  cases st.subject with
  | some s => simp
  | none =>
    cases r with
    | error e => simp
    | ok items => simp [List.mem_map]

theorem isErr_eq_true_iff {α β : Type} (x : Except α β) :
    isErr x = true ↔ ∃ e, x = Except.error e := by
  cases x <;> simp [isErr]

/-- C4: assembly failures are fail-fast. For every `assembleEmail` run —
whatever the completion order — in which a task that actually ran failed
(filesystem `readdir` error or template-engine load error), the caller's
callback is invoked with one of the task errors, no envelope is ever
emitted, and hence no transport submission is ever issued for any
DataItem. -/
theorem C4_assembly_failure_is_failfast :
    ∀ (st : AsmSettings) (content : Except String (List (Nat × String × String)))
      (rendered : Except String (List (Nat × String)))
      (attach : Except String (List String)) (l : List AsmEvent),
      l.Perm (assembleEvents st content rendered attach) →
      assemblyFailed st content rendered attach = true →
      (∃ e, (runAsm l).errCb = some e ∧ e ∈ taskErrors st content rendered attach)
      ∧ (runAsm l).emitted = []
      ∧ ∀ (m : MutSettings), (submitEnvelopes m (runAsm l).emitted).2 = [] := by
  intro st content rendered attach l hperm hfail
  have hfm : (l.filterMap errOf).Perm (taskErrors st content rendered attach) :=
    hperm.filterMap errOf
  have herrCb : (runAsm l).errCb = (l.filterMap errOf).head? :=
    errCb_foldl_of_none l { } rfl
  simp only [assemblyFailed, Bool.or_eq_true, Bool.and_eq_true,
    Option.isNone_iff_eq_none] at hfail
  have hte : taskErrors st content rendered attach ≠ [] := by
    rcases hfail with (hc | ⟨hsub, hr⟩) | ha
    · obtain ⟨e, rfl⟩ := (isErr_eq_true_iff content).mp hc
      apply List.ne_nil_of_mem (a := e)
      simp [taskErrors, assembleEvents, contentEvents, List.filterMap_append, errOf]
    · obtain ⟨e, rfl⟩ := (isErr_eq_true_iff rendered).mp hr
      apply List.ne_nil_of_mem (a := e)
      simp [taskErrors, assembleEvents, subjectTaskEvents, hsub,
        List.filterMap_append, errOf]
    · obtain ⟨e, rfl⟩ := (isErr_eq_true_iff attach).mp ha
      apply List.ne_nil_of_mem (a := e)
      simp [taskErrors, assembleEvents, attachEvents, List.filterMap_append, errOf]
  have hemit : (runAsm l).emitted = [] := by
    rcases hfail with (hc | ⟨hsub, hr⟩) | ha
    · obtain ⟨e0, rfl⟩ := (isErr_eq_true_iff content).mp hc
      refine emitted_nil_of_no_content l { } ?_ rfl ?_
      · intro u hh tt hx
        have hx' := hperm.subset hx
        simp only [assembleEvents] at hx'
        rcases List.mem_append.mp hx' with h1 | h2
        · rcases List.mem_append.mp h1 with h1a | h1b
          · simp [contentEvents] at h1a
          · exact contentItem_not_mem_subjectTaskEvents st rendered u hh tt h1b
        · exact contentItem_not_mem_attachEvents attach u hh tt h2
      · intro e he
        exact absurd he (List.not_mem_nil e)
    · obtain ⟨e0, rfl⟩ := (isErr_eq_true_iff rendered).mp hr
      refine emitted_nil_of_no_subject l { } ?_ ?_ rfl ?_
      · intro u sub hx
        have hx' := hperm.subset hx
        simp only [assembleEvents] at hx'
        rcases List.mem_append.mp hx' with h1 | h2
        · rcases List.mem_append.mp h1 with h1a | h1b
          · exact subjectItem_not_mem_contentEvents content u sub h1a
          · simp [subjectTaskEvents, hsub] at h1b
        · exact subjectItem_not_mem_attachEvents attach u sub h2
      · intro sub hx
        have hx' := hperm.subset hx
        simp only [assembleEvents] at hx'
        rcases List.mem_append.mp hx' with h1 | h2
        · rcases List.mem_append.mp h1 with h1a | h1b
          · exact subjectLiteral_not_mem_contentEvents content sub h1a
          · simp [subjectTaskEvents, hsub] at h1b
        · exact subjectLiteral_not_mem_attachEvents attach sub h2
      · intro e he
        exact absurd he (List.not_mem_nil e)
    · obtain ⟨e0, rfl⟩ := (isErr_eq_true_iff attach).mp ha
      refine emitted_nil_of_no_attachDone l { } ?_ rfl rfl
      intro hx
      have hx' := hperm.subset hx
      simp only [assembleEvents] at hx'
      rcases List.mem_append.mp hx' with h1 | h2
      · rcases List.mem_append.mp h1 with h1a | h1b
        · exact attachDone_not_mem_contentEvents content h1a
        · exact attachDone_not_mem_subjectTaskEvents st rendered h1b
      · simp [attachEvents] at h2
  refine ⟨?_, hemit, ?_⟩
  · have hlfm : l.filterMap errOf ≠ [] := by
      intro hnil
      rw [hnil] at hfm
      exact hte (List.Perm.nil_eq hfm).symm
    cases hl2 : l.filterMap errOf with
    | nil => exact absurd hl2 hlfm
    | cons a as =>
      refine ⟨a, ?_, ?_⟩
      · rw [herrCb, hl2]; rfl
      · exact hfm.subset (by rw [hl2]; exact List.mem_cons_self a as)
  · intro m
    rw [hemit]
    rfl

/-- Closed instance of the C4 theorem: a content-render failure aborts
the whole assembly with that error, and nothing is submitted. -/
theorem C4_assembly_failure_witness :
    (runAsm (assembleEvents { type := "t" } (Except.error "boom")
        (Except.ok [(0, "S")]) (Except.ok ["f.png"]))).emitted = []
    ∧ ∀ (m : MutSettings),
        (submitEnvelopes m
          (runAsm (assembleEvents { type := "t" } (Except.error "boom")
            (Except.ok [(0, "S")]) (Except.ok ["f.png"]))).emitted).2 = [] :=
  ⟨(C4_assembly_failure_is_failfast { type := "t" } (Except.error "boom")
      (Except.ok [(0, "S")]) (Except.ok ["f.png"]) _ (List.Perm.refl _) (by decide)).2.1,
   (C4_assembly_failure_is_failfast { type := "t" } (Except.error "boom")
      (Except.ok [(0, "S")]) (Except.ok ["f.png"]) _ (List.Perm.refl _) (by decide)).2.2⟩

/-- Every field contribution with a subject drawn from `V` keeps all
subjects in the accumulator and the emitted envelopes inside `V`. -/
theorem accumulate_subject_inv (s : AsmState) (k : Option Nat) (tpl : EnvFields)
    (V : List String)
    (hemit : ∀ p ∈ s.emitted, ∃ v, p.subject = some v ∧ v ∈ V)
    (hacc : ∀ e ∈ s.acc, ∀ v, e.2.subject = some v → v ∈ V)
    (htpl : ∀ v, tpl.subject = some v → v ∈ V) :
    (∀ p ∈ (accumulate s k tpl).emitted, ∃ v, p.subject = some v ∧ v ∈ V)
    ∧ (∀ e ∈ (accumulate s k tpl).acc, ∀ v, e.2.subject = some v → v ∈ V) := by
  have hinst : ∀ v, (extendFields (getAcc s.acc k) tpl).subject = some v → v ∈ V := by
    intro v hv
    rw [show (extendFields (getAcc s.acc k) tpl).subject
        = if tpl.subject.isSome then tpl.subject else (getAcc s.acc k).subject
        from rfl] at hv
    by_cases hts : tpl.subject.isSome = true
    · rw [if_pos hts] at hv
      exact htpl v hv
    · rw [if_neg hts] at hv
      rcases getAcc_cases s.acc k with ⟨e, hemem, _, hg⟩ | hg
      · rw [hg] at hv
        exact hacc e hemem v hv
      · rw [hg] at hv
        exact absurd hv (by simp)
  unfold accumulate
  dsimp only
  split
  · constructor
    · intro p hp
      rcases List.mem_append.mp hp with hold | hnew
      · exact hemit p hold
      · have hpe : p = extendFields (getAcc s.acc k) tpl := by simpa using hnew
        rename_i hcond
        have hsub : truthy (extendFields (getAcc s.acc k) tpl).subject = true := by
          simp only [Bool.and_eq_true] at hcond
          exact hcond.1.2
        cases hs : (extendFields (getAcc s.acc k) tpl).subject with
        | none => rw [hs] at hsub; exact absurd hsub (by simp [truthy])
        | some v => exact ⟨v, by rw [hpe, hs], hinst v hs⟩
    · intro e he
      rcases mem_setAcc (mem_removeAcc he) with heq | hold
      · intro v hv
        rw [heq] at hv
        exact hinst v hv
      · exact hacc e hold
  · constructor
    · exact hemit
    · intro e he
      rcases mem_setAcc he with heq | hold
      · intro v hv
        rw [heq] at hv
        exact hinst v hv
      · exact hacc e hold

/-- The subject of every emitted envelope is one of the subject values
delivered by the run's completions, unchanged — no post-processing of any
kind is applied to it. -/
theorem subject_pass_through : ∀ (l : List AsmEvent) (s : AsmState) (V : List String),
    (∀ p ∈ s.emitted, ∃ v, p.subject = some v ∧ v ∈ V) →
    (∀ e ∈ s.acc, ∀ v, e.2.subject = some v → v ∈ V) →
    (∀ v ∈ subjectValues l, v ∈ V) →
    ∀ p ∈ (l.foldl stepAsm s).emitted, ∃ v, p.subject = some v ∧ v ∈ V := by
  intro l
  induction l with
  | nil => intro s V hemit _ _; exact hemit
  | cons ev l ih =>
    intro s V hemit hacc hV
    have hVl : ∀ v ∈ subjectValues l, v ∈ V := by
      intro v hv
      apply hV
      unfold subjectValues at hv ⊢
      rw [List.filterMap_cons]
      cases ev with
      | contentItem u hh tt => exact hv
      | subjectItem u sub => exact List.mem_cons_of_mem _ hv
      | subjectLiteral sub => exact List.mem_cons_of_mem _ hv
      | attachDone => exact hv
      | errEvent e => exact hv
    simp only [List.foldl_cons]
    cases ev with
    | contentItem u hh tt =>
      obtain ⟨h1, h2⟩ := accumulate_subject_inv s (some u)
        { html := some hh, text := some tt } V hemit hacc
        (fun v hv => absurd hv (by simp))
      exact ih _ V h1 h2 hVl
    | subjectItem u sub =>
      have hsubV : sub ∈ V := by
        apply hV
        unfold subjectValues
        rw [List.filterMap_cons]
        exact List.mem_cons_self _ _
      obtain ⟨h1, h2⟩ := accumulate_subject_inv s (some u)
        { subject := some sub } V hemit hacc
        (fun v hv => by simp at hv; rw [← hv]; exact hsubV)
      exact ih _ V h1 h2 hVl
    | subjectLiteral sub =>
      have hsubV : sub ∈ V := by
        apply hV
        unfold subjectValues
        rw [List.filterMap_cons]
        exact List.mem_cons_self _ _
      obtain ⟨h1, h2⟩ := accumulate_subject_inv s none
        { subject := some sub } V hemit hacc
        (fun v hv => by simp at hv; rw [← hv]; exact hsubV)
      exact ih _ V h1 h2 hVl
    | attachDone => exact ih _ V hemit hacc hVl
    | errEvent e =>
      refine ih _ V ?_ ?_ hVl
      · cases hcb : s.errCb <;> simp [stepAsm, hcb] <;> exact hemit
      · cases hcb : s.errCb <;> simp [stepAsm, hcb] <;>
          exact fun a b hab => hacc (a, b) hab

/-- C8, counterexample: the claim is false at a concrete input. With
`settings.ref = 'X'` present and the subject template rendering to `"S"`,
the emitted envelope's subject is exactly `"S"` — `assembleEmail` never
reads `settings.ref`, so `" (ref:X)"` is not appended. -/
theorem C8_ref_suffix_not_appended :
    (runAsm (attachEvents (.ok [])
        ++ contentEvents (.ok [(0, "H", "T")])
        ++ subjectTaskEvents { type := "t", ref := some "X" } (.ok [(0, "S")]))).emitted
      = [{ html := some "H", text := some "T", subject := some "S" }]
    ∧ (some "S" : Option String) ≠ some ("S" ++ " (ref:" ++ "X" ++ ")") := by
  decide

/-- C8 (amended): `settings.ref` has no effect on assembly — the whole
assembly outcome is unchanged under any change of `ref` (and of the
caller-supplied attachments, which are equally unread) — and the resolved
subject of every emitted envelope is one of the rendered or literal
subject values, emitted unchanged with nothing appended. -/
theorem C8_ref_never_affects_assembly :
    ∀ (ty : String) (sub : Option String) (r r' : Option String)
      (atts atts' : List Attachment)
      (content : Except String (List (Nat × String × String)))
      (rendered : Except String (List (Nat × String)))
      (attach : Except String (List String)),
      runAssembly { type := ty, subject := sub, ref := r, attachments := atts }
          content rendered attach
        = runAssembly { type := ty, subject := sub, ref := r', attachments := atts' }
          content rendered attach
      ∧ ∀ (l : List AsmEvent) (p : EnvFields), p ∈ (runAsm l).emitted →
          ∃ v, p.subject = some v ∧ v ∈ subjectValues l := by
  intro ty sub r r' atts atts' content rendered attach
  constructor
  · rfl
  · intro l p hp
    exact subject_pass_through l { } (subjectValues l)
      (fun p hp => absurd hp (List.not_mem_nil p))
      (fun e he => absurd he (List.not_mem_nil e))
      (fun v hv => hv) p hp

/-- Closed instance of the C8 amended theorem at a concrete run. -/
theorem C8_ref_never_affects_assembly_witness :
    runAssembly { type := "t", subject := none, ref := some "X", attachments := [] }
        (Except.ok [(0, "H", "T")]) (Except.ok [(0, "S")]) (Except.ok [])
      = runAssembly { type := "t", subject := none, ref := none, attachments := [] }
        (Except.ok [(0, "H", "T")]) (Except.ok [(0, "S")]) (Except.ok [])
    ∧ ∃ v, (({ html := some "H", text := some "T", subject := some "S" } : EnvFields).subject
          = some v)
        ∧ v ∈ subjectValues
            [AsmEvent.attachDone, AsmEvent.contentItem 0 "H" "T", AsmEvent.subjectItem 0 "S"] :=
  ⟨(C8_ref_never_affects_assembly "t" none (some "X") none [] []
      (Except.ok [(0, "H", "T")]) (Except.ok [(0, "S")]) (Except.ok [])).1,
   (C8_ref_never_affects_assembly "t" none (some "X") none [] []
      (Except.ok [(0, "H", "T")]) (Except.ok [(0, "S")]) (Except.ok [])).2
     [AsmEvent.attachDone, AsmEvent.contentItem 0 "H" "T", AsmEvent.subjectItem 0 "S"]
     { html := some "H", text := some "T", subject := some "S" } (by decide)⟩

end SgsComm
